import Mathlib

/-!
Verification model of the `text-type-detection` package (`src/index.js`).

The JavaScript source is shallowly embedded: strings become `List Char`
values, regular expressions become executable scanners over character
lists with the exact semantics of the source patterns (JS `m`-flag line
anchors, character classes, greedy/backtracking behaviour), and IEEE
floating point scores are idealised as exact rationals (`ℚ`).  The one
place the source computes a square root (`std` in the line statistics)
is carried as the variance `var` with `std = √var`; the single
comparison involving `std` is expressed by squaring both (nonnegative)
sides, which is exact.
-/

namespace TextDetect

/-- Named characters, written via code points so the file stays free of
brace/backtick/quote literals. -/
def lb : Char := Char.ofNat 123   -- left curly brace
def rb : Char := Char.ofNat 125   -- right curly brace
def bq : Char := Char.ofNat 96    -- backtick
def esc : Char := Char.ofNat 27   -- ESC, \x1B

/-- JS `\s` / `String.prototype.trim` whitespace set (WhiteSpace ∪ LineTerminator). -/
def isWs (c : Char) : Bool :=
  decide (9 ≤ c.toNat ∧ c.toNat ≤ 13) || c == ' ' || decide (c.toNat = 0xA0) ||
  decide (c.toNat = 0x1680) || decide (0x2000 ≤ c.toNat ∧ c.toNat ≤ 0x200A) ||
  decide (c.toNat = 0x2028) || decide (c.toNat = 0x2029) || decide (c.toNat = 0x202F) ||
  decide (c.toNat = 0x205F) || decide (c.toNat = 0x3000) || decide (c.toNat = 0xFEFF)

/-- JS line terminators (what `m`-flag `^`/`$` and `.` care about). -/
def isLineTerm (c : Char) : Bool :=
  c == '\n' || c == '\r' || decide (c.toNat = 0x2028) || decide (c.toNat = 0x2029)

/-- JS `\w`: `[A-Za-z0-9_]`. -/
def isWordChar (c : Char) : Bool :=
  decide ('a' ≤ c ∧ c ≤ 'z') || decide ('A' ≤ c ∧ c ≤ 'Z') ||
  decide ('0' ≤ c ∧ c ≤ '9') || c == '_'

/-- `[A-Za-z0-9]` (the per-character alphanumeric test in `asciiArtScore`). -/
def isAlnum (c : Char) : Bool :=
  decide ('a' ≤ c ∧ c ≤ 'z') || decide ('A' ≤ c ∧ c ≤ 'Z') || decide ('0' ≤ c ∧ c ≤ '9')

/-- `[0-9]`. -/
def isDigitCh (c : Char) : Bool := decide ('0' ≤ c ∧ c ≤ '9')

/-- `const BORDER_CHARS = new Set(Array.from('+|-_=/#\\*<>'))`. -/
def BORDER_CHARS : List Char := "+|-_=/#\\*<>".toList

/-- `const LINE_SYMBOL_CHARS = new Set(Array.from('...'))` — the symbol set,
with backtick, braces, apostrophe and double quote written as escapes. -/
def LINE_SYMBOL_CHARS : List Char :=
  "\x60~!@#$%^&*()-_=+[]\x7b\x7d|\\;:\x27\x22,.<>/?".toList

def isBorderChar (c : Char) : Bool := BORDER_CHARS.contains c

def isLineSymbolChar (c : Char) : Bool := LINE_SYMBOL_CHARS.contains c

/-- `text.replace(/\r\n?/g, '\n')`: every CRLF or lone CR becomes LF. -/
def normNL : List Char → List Char
  | [] => []
  | '\r' :: '\n' :: rest => '\n' :: normNL rest
  | '\r' :: rest => '\n' :: normNL rest
  | c :: rest => c :: normNL rest

/-- `raw.split('\n')` (JS `split` on the empty string yields one empty piece). -/
def splitLines : List Char → List (List Char)
  | [] => [[]]
  | '\n' :: rest => [] :: splitLines rest
  | c :: rest =>
    match splitLines rest with
    | l :: ls => (c :: l) :: ls
    | [] => [[c]]

/-- `text.split(/\r?\n/)` used by `codeLikePenalty` (a lone CR does not split). -/
def splitCodeLines : List Char → List (List Char)
  | [] => [[]]
  | '\r' :: '\n' :: rest => [] :: splitCodeLines rest
  | '\n' :: rest => [] :: splitCodeLines rest
  | c :: rest =>
    match splitCodeLines rest with
    | l :: ls => (c :: l) :: ls
    | [] => [[c]]

/-- JS `String.prototype.trim`. -/
def jsTrim (cs : List Char) : List Char :=
  ((cs.dropWhile isWs).reverse.dropWhile isWs).reverse

/-- Unicode code-point range membership (the `BOX_DRAWING_RE` family). -/
def inRange (lo hi : Nat) (c : Char) : Bool := decide (lo ≤ c.toNat ∧ c.toNat ≤ hi)

/-- `/[─-╿]/.test` — box drawing. -/
def hasBoxDrawing (cs : List Char) : Bool := cs.any (inRange 0x2500 0x257F)

/-- `/[▀-▟]/.test` — block elements. -/
def hasBlockElems (cs : List Char) : Bool := cs.any (inRange 0x2580 0x259F)

/-- `/[⠀-⣿]/.test` — Braille. -/
def hasBraille (cs : List Char) : Bool := cs.any (inRange 0x2800 0x28FF)

/-- `/[■-◿]/.test` — geometric shapes. -/
def hasGeom (cs : List Char) : Bool := cs.any (inRange 0x25A0 0x25FF)

/-- `/\x1B\[[0-9;]*m/` tested at the head of the list: ESC, literal bracket,
a run of digits and semicolons, then the letter m.  The class run is
deterministic because m is not in the class. -/
def ansiAt : List Char → Bool
  | c1 :: c2 :: rest =>
    c1 == esc && c2 == '[' &&
      (match rest.dropWhile (fun c => isDigitCh c || c == ';') with
       | 'm' :: _ => true
       | _ => false)
  | _ => false

/-- `/\x1B\[[0-9;]*m/.test`: the pattern occurs somewhere. -/
def hasAnsi : List Char → Bool
  | [] => false
  | c :: rest => ansiAt (c :: rest) || hasAnsi rest

/-- `/(.)\1{4,}/.test(line)`: five consecutive equal characters; JS `.`
does not match line terminators. -/
def hasRun : List Char → Bool
  | c1 :: c2 :: c3 :: c4 :: c5 :: rest =>
    (!isLineTerm c1 && c1 == c2 && c2 == c3 && c3 == c4 && c4 == c5) ||
      hasRun (c2 :: c3 :: c4 :: c5 :: rest)
  | _ => false

/-- Remainder of the list after the first occurrence of `pat` (patterns used
here are nonempty), `none` when `pat` does not occur. -/
def afterFirst (pat : List Char) : List Char → Option (List Char)
  | [] => none
  | c :: rest =>
    if pat.isPrefixOf (c :: rest) then some ((c :: rest).drop pat.length)
    else afterFirst pat rest

/-- `pat` occurs somewhere in the list. -/
def containsPat (pat : List Char) (cs : List Char) : Bool := (afterFirst pat cs).isSome

/-- Two disjoint occurrences of `pat` (the semantics of `pat[\s\S]*?pat`). -/
def twoFences (pat : List Char) (cs : List Char) : Bool :=
  match afterFirst pat cs with
  | none => false
  | some rest => containsPat pat rest

/-- ``` /```[\s\S]*?```|~~~[\s\S]*?~~~/m ``` — a balanced triple-backtick or
triple-tilde pair (shared by `MD.fenced` and the `code` fast path). -/
def fencedRe (cs : List Char) : Bool :=
  twoFences [bq, bq, bq] cs || twoFences ['~', '~', '~'] cs

/-- `/^\s*<\?xml/i.test(text)`: after optional leading whitespace (no `m`
flag, so anchored at the very start) the text begins with `<?xml`,
case-insensitively. -/
def xmlQuick (cs : List Char) : Bool :=
  match cs.dropWhile isWs with
  | '<' :: '?' :: x :: m :: l :: _ =>
    (x == 'x' || x == 'X') && (m == 'm' || m == 'M') && (l == 'l' || l == 'L')
  | _ => false

/-- `/^\s*<[^>]+>/.test(text)`: after optional leading whitespace the text
begins with `<`, at least one character that is not `>`, then `>`. -/
def htmlQuick (cs : List Char) : Bool :=
  match cs.dropWhile isWs with
  | '<' :: c :: rest => !(c == '>') && (c :: rest).contains '>'
  | _ => false

/-- All characters up to the next line terminator (or the end) are
whitespace — the meaning of `\s*$` under the `m` flag, since a line
terminator is itself whitespace. -/
def wsToLineEnd : List Char → Bool
  | [] => true
  | c :: rest => isLineTerm c || (isWs c && wsToLineEnd rest)

/-- Scan for `[\]}]\s*$` (with `m`): a closing curly brace or bracket that is
followed on its line only by whitespace. -/
def closeScan : List Char → Bool
  | [] => false
  | c :: rest => ((c == rb || c == ']') && wsToLineEnd rest) || closeScan rest

/-- `/^\s*[{[][\s\S]*[\]}]\s*$/m.test(text)`.  The flag records whether every
character since the last line start is whitespace (so that `^\s*` can reach
the current position); at the start of the text it is true. -/
def jsonOpenScan : List Char → Bool → Bool
  | [], _ => false
  | c :: rest, flag =>
    ((c == lb || c == '[') && flag && closeScan rest) ||
      jsonOpenScan rest (if isLineTerm c then true else flag && isWs c)

/-- The `json` fast path of `detectTextFormat`. -/
def jsonQuick (cs : List Char) : Bool := jsonOpenScan cs true

/-- One step of the border-like test of `asciiArtScore` (lines 69–82 of the
source): `t` is the trimmed line; it counts when `t.length >= 3`,
`BORDER_CHARS.has(t[0]) && BORDER_CHARS.has(t.at(-1))`, and
`(mostlyBorder || allSame)`, where `mostlyBorder` is
`filter(BORDER_CHARS.has).length / t.length >= 0.8` and `allSame` is
`every((c) => c === t[0])`. -/
def isBorderLike (line : List Char) : Bool :=
  let t := jsTrim line
  match t with
  | [] => false
  | c0 :: rest =>
    if (c0 :: rest).length < 3 then false
    else
      let allSame := (c0 :: rest).all (fun c => c == c0)
      let mostlyBorder :=
        decide ((0.8 : ℚ) ≤
          (((c0 :: rest).filter isBorderChar).length : ℚ) / ((c0 :: rest).length : ℚ))
      isBorderChar c0 && isBorderChar ((c0 :: rest).getLast (List.cons_ne_nil c0 rest)) &&
        (mostlyBorder || allSame)

/-- `/\s+$/.test(line) && t.length`: the line ends in whitespace and its
trimmed form is nonempty. -/
def trailingWsLine (l : List Char) : Bool :=
  (match l.reverse with
   | c :: _ => isWs c
   | [] => false) && !(jsTrim l).isEmpty

/-- `Math.max(0, Math.min(1, score))`. -/
def clamp01 (q : ℚ) : ℚ := max 0 (min 1 q)

/-- The line statistics record built by `asciiArtScore`
(`{ lines, mean, std, symD, alpha }`).  The source stores the standard
deviation `std = √var`; since the square root of a rational is irrational
in general, the model carries the (population) variance `var` instead, and
the one comparison involving `std` is done on squares. -/
structure LineStats where
  lines : Nat
  mean : ℚ
  var : ℚ
  symD : ℚ
  alpha : ℚ
deriving DecidableEq

/-- Result record of `asciiArtScore`: `{ score, reasons, stats? }` (the
`stats` key is absent in the fewer-than-3-lines branch). -/
structure AsciiResult where
  score : ℚ
  reasons : List String
  stats : Option LineStats
deriving DecidableEq

/-- `asciiArtScore` (source lines 36–145), translated condition for
condition.  `std / Math.max(1, mean) <= 0.22` is rendered as
`var ≤ (0.22 * max 1 mean)^2`, which is equivalent because both sides of
the source comparison are nonnegative. -/
def asciiArtScore (text : String) : AsciiResult :=
  let raw := normNL text.toList
  let lines := splitLines raw
  if lines.length < 3 then { score := 0, reasons := ["too_few_lines"], stats := none }
  else
    let lengths : List Nat := lines.map List.length
    let n : ℚ := (lines.length : ℚ)
    let mean : ℚ := ((lengths.sum : ℚ)) / n
    let var : ℚ := ((lengths.map (fun (l : Nat) => ((l : ℚ) - mean) ^ 2)).sum) / n
    let total : Nat := lengths.sum
    let alnum : Nat := (lines.map (fun l => (l.filter isAlnum).length)).sum
    let sym : Nat := (lines.map (fun l => (l.filter isLineSymbolChar).length)).sum
    let borders : Nat := (lines.filter isBorderLike).length
    let runs : Nat := (lines.filter hasRun).length
    let trailing : Nat := (lines.filter trailingWsLine).length
    let wide : Nat := (lines.filter (fun l => decide (l.length ≥ 20))).length
    let symD : ℚ := if total = 0 then 0 else (sym : ℚ) / (total : ℚ)
    let alpha : ℚ := if total = 0 then 0 else (alnum : ℚ) / (total : ℚ)
    let hasUnicodeArt :=
      hasBoxDrawing raw || hasBlockElems raw || hasBraille raw || hasGeom raw
    let ansi := hasAnsi raw
    let c1 := decide ((wide : ℚ) / n ≥ 0.7)
    let c2 := decide (mean ≥ 20 ∧ var ≤ (0.22 * max 1 mean) ^ 2)
    let c3 := decide (symD ≥ 0.18 ∧ alpha ≤ 0.55)
    let c4 := decide (runs ≥ max 2 (Nat.floor (n * 0.05)))
    let c5 := decide ((borders : ℚ) / n ≥ 0.08)
    let c6 := decide ((trailing : ℚ) / n ≥ 0.1)
    let c9 := decide (alpha > 0.75)
    let score : ℚ :=
      (if c1 then 0.15 else 0) + (if c2 then 0.2 else 0) + (if c3 then 0.2 else 0) +
      (if c4 then 0.15 else 0) + (if c5 then 0.1 else 0) + (if c6 then 0.07 else 0) +
      (if ansi then 0.12 else 0) + (if hasUnicodeArt then 0.28 else 0) -
      (if c9 then 0.1 else 0)
    let reasons :=
      (if c1 then ["many_wide_lines"] else []) ++
      (if c2 then ["consistent_width"] else []) ++
      (if c3 then ["symbol_heavy_low_alpha"] else []) ++
      (if c4 then ["long_same_char_runs"] else []) ++
      (if c5 then ["border_like_lines"] else []) ++
      (if c6 then ["trailing_spaces"] else []) ++
      (if ansi then ["ansi_sequences"] else []) ++
      (if hasUnicodeArt then ["unicode_art_chars"] else []) ++
      (if c9 then ["very_text_heavy"] else [])
    { score := clamp01 score
      reasons := reasons
      stats := some { lines := lines.length, mean := mean, var := var, symD := symD, alpha := alpha } }

/-- Auxiliary scan: `p` holds at some line start strictly inside the list
(a position right after a line terminator). -/
def anyLineStartAux (p : List Char → Bool) : List Char → Bool
  | [] => false
  | c :: rest => (isLineTerm c && p rest) || anyLineStartAux p rest

/-- `p` holds at some line start (the semantics of an `m`-flag `^`). -/
def anyLineStart (p : List Char → Bool) (cs : List Char) : Bool :=
  p cs || anyLineStartAux p cs

/-- `MD.heading = /^(#{1,6})\s+\S+/m` at a line start: one to six hashes,
at least one whitespace character, then a non-whitespace character. -/
def headingAt (cs : List Char) : Bool :=
  let n := (cs.takeWhile (fun c => c == '#')).length
  decide (1 ≤ n) && decide (n ≤ 6) &&
    (match cs.drop n with
     | c :: rest => isWs c && !((c :: rest).dropWhile isWs).isEmpty
     | [] => false)

/-- The underline part of `MD.setext`: `(=+|-+)\s*$` — a nonempty run of
`=` or of `-`, then only whitespace up to the end of the line. -/
def setextUnderline (cs : List Char) : Bool :=
  match cs with
  | c :: _ =>
    (c == '=' || c == '-') && wsToLineEnd (cs.dropWhile (fun d => d == c))
  | [] => false

/-- `MD.setext = /^(.+)\n(=+|-+)\s*$/m` at a line start: a nonempty line
(`.` excludes line terminators), a literal newline, then an underline. -/
def setextAt (cs : List Char) : Bool :=
  let content := cs.takeWhile (fun c => !isLineTerm c)
  !content.isEmpty &&
    (match cs.drop content.length with
     | '\n' :: rest => setextUnderline rest
     | _ => false)

/-- `MD.list = /^(?:\s{0,3}[-*+]\s+|\s{0,3}\d+\.\s+)/m` at a line start:
at most three whitespace characters, then either a bullet followed by
whitespace or digits, a dot and whitespace. -/
def listAt (cs : List Char) : Bool :=
  let r := (cs.takeWhile isWs).length
  if r > 3 then false
  else
    match cs.drop r with
    | c :: rest =>
      ((c == '-' || c == '*' || c == '+') &&
        (match rest with
         | d :: _ => isWs d
         | [] => false)) ||
      (let ds := (c :: rest).takeWhile isDigitCh
       !ds.isEmpty &&
         (match (c :: rest).drop ds.length with
          | '.' :: d :: _ => isWs d
          | _ => false))
    | [] => false

/-- `MD.blockquote = /^>\s+/m` at a line start. -/
def blockquoteAt (cs : List Char) : Bool :=
  match cs with
  | '>' :: d :: _ => isWs d
  | _ => false

/-- `` MD.inlineCode = /(^|[^`])`[^`]+`/m `` — scan with a flag recording
whether a backtick may start here (position 0, or the previous character
is not a backtick; a line start after a terminator is subsumed since a
terminator is not a backtick). -/
def inlineCodeScan : List Char → Bool → Bool
  | [], _ => false
  | c :: rest, ok =>
    (ok && c == bq &&
      (match rest with
       | d :: rest2 => !(d == bq) && rest2.contains bq
       | [] => false)) ||
    inlineCodeScan rest (!(c == bq))

def inlineCodeRe (cs : List Char) : Bool := inlineCodeScan cs true

/-- The tail of `MD.link` after an opening bracket:
`[^\]]+\]\([^)]+\)`. -/
def linkAfterOpen (rest : List Char) : Bool :=
  let inner := rest.takeWhile (fun c => !(c == ']'))
  !inner.isEmpty &&
    (match rest.drop inner.length with
     | ']' :: '(' :: r2 =>
       let url := r2.takeWhile (fun c => !(c == ')'))
       !url.isEmpty &&
         (match r2.drop url.length with
          | ')' :: _ => true
          | _ => false)
     | _ => false)

/-- `MD.link = /\[[^\]]+\]\([^)]+\)/m`: occurs anywhere. -/
def linkScan : List Char → Bool
  | [] => false
  | '[' :: rest => linkAfterOpen rest || linkScan rest
  | _ :: rest => linkScan rest

/-- The tail of `MD.image` after `![`: `[^\]]*\]\([^)]+\)` (empty alt text
allowed). -/
def imageAfterOpen (rest : List Char) : Bool :=
  let alt := rest.takeWhile (fun c => !(c == ']'))
  match rest.drop alt.length with
  | ']' :: '(' :: r2 =>
    let url := r2.takeWhile (fun c => !(c == ')'))
    !url.isEmpty &&
      (match r2.drop url.length with
       | ')' :: _ => true
       | _ => false)
  | _ => false

/-- `MD.image = /!\[[^\]]*\]\([^)]+\)/m`: occurs anywhere. -/
def imageScan : List Char → Bool
  | [] => false
  | '!' :: '[' :: rest => imageAfterOpen rest || imageScan ('[' :: rest)
  | _ :: rest => imageScan rest

/-- `MD.tableRow = /^\|?[^|\n]+\|[^|\n]+/m` at a line start: an optional
leading pipe, a nonempty pipe-free cell, a pipe, and at least one further
pipe-free, newline-free character. -/
def tableRowAt (cs : List Char) : Bool :=
  let cs1 := match cs with
    | '|' :: rest => rest
    | _ => cs
  let cell := cs1.takeWhile (fun c => !(c == '|') && !(c == '\n'))
  !cell.isEmpty &&
    (match cs1.drop cell.length with
     | '|' :: d :: _ => !(d == '|') && !(d == '\n')
     | _ => false)

/-- The body of one `MD.hr` alternative, `(?:c\s?){3,}$`, with full
backtracking over the optional whitespace of each group: `n` counts the
groups consumed so far, and the match succeeds at the end of the input or
before a line terminator once at least three groups were read. -/
def hrBlocks (c : Char) : List Char → Nat → Bool
  | [], n => decide (3 ≤ n)
  | [x], n =>
    if x == c then decide (3 ≤ n + 1) else isLineTerm x && decide (3 ≤ n)
  | x :: y :: rest, n =>
    if x == c then
      (isWs y && hrBlocks c rest (n + 1)) || hrBlocks c (y :: rest) (n + 1)
    else isLineTerm x && decide (3 ≤ n)

/-- `MD.hr = /^(?:-\s?){3,}$|^(?:\*\s?){3,}$|^(?:_\s?){3,}$/m` at a line
start. -/
def hrAt (cs : List Char) : Bool :=
  hrBlocks '-' cs 0 || hrBlocks '*' cs 0 || hrBlocks '_' cs 0

/-- The closing star run of `MD.emphasis`: `\*{1,2}(?!\*)` — one or two
stars not followed by another star. -/
def emphClose : List Char → Bool
  | '*' :: '*' :: '*' :: _ => false
  | '*' :: _ => true
  | _ => false

/-- One attempt of `MD.emphasis` at a permitted position: `\*{1,2}` (a run
of one or two stars — three or more make the content start with a star and
fail), nonempty content free of `*` and `\n`, then a closing run. -/
def emphAt (cs : List Char) : Bool :=
  match cs with
  | '*' :: rest =>
    let body := match rest with
      | '*' :: r => r
      | _ => rest
    let content := body.takeWhile (fun c => !(c == '*') && !(c == '\n'))
    !content.isEmpty && emphClose (body.drop content.length)
  | _ => false

/-- `MD.emphasis = /(^|[^\w*])\*{1,2}[^*\n]+\*{1,2}(?!\*)/m` — scan with a
flag recording whether the position is permitted (position 0, or the
previous character is neither a word character nor a star; a line start is
subsumed since a terminator is not a word character). -/
def emphasisScan : List Char → Bool → Bool
  | [], _ => false
  | c :: rest, ok =>
    (ok && emphAt (c :: rest)) || emphasisScan rest (!(isWordChar c) && !(c == '*'))

def emphasisRe (cs : List Char) : Bool := emphasisScan cs true

/-- Case-insensitive literal prefix (`pat` is lowercase). -/
def startsWithCI : List Char → List Char → Bool
  | [], _ => true
  | _ :: _, [] => false
  | p :: ps, c :: cs => c.toLower == p && startsWithCI ps cs

/-- One tag-name alternative of `MD.html` followed by `[^>]*>`: the
remainder after the name contains a `>`. -/
def tagMatch (pat : String) (cs : List Char) : Bool :=
  startsWithCI pat.toList cs && (cs.drop pat.length).contains '>'

/-- The `h[1-6]` alternative. -/
def hTagMatch (cs : List Char) : Bool :=
  match cs with
  | c :: d :: rest =>
    c.toLower == 'h' && decide ('1' ≤ d ∧ d ≤ '6') && (rest.contains '>')
  | _ => false

/-- The alternation of `MD.html` after `<` and an optional `/`. -/
def htmlTagAt (cs : List Char) : Bool :=
  tagMatch "div" cs || tagMatch "span" cs || tagMatch "br" cs || tagMatch "img" cs ||
  tagMatch "a" cs || tagMatch "p" cs || hTagMatch cs || tagMatch "ul" cs ||
  tagMatch "ol" cs || tagMatch "li" cs || tagMatch "code" cs || tagMatch "pre" cs

/-- `MD.html = /<\/?(?:div|span|br|img|a|p|h[1-6]|ul|ol|li|code|pre)[^>]*>/i`:
occurs anywhere. -/
def htmlScan : List Char → Bool
  | [] => false
  | '<' :: rest =>
    (htmlTagAt (match rest with
      | '/' :: r => r
      | _ => rest)) || htmlScan rest
  | _ :: rest => htmlScan rest

/-- `MD.frontMatter = /^---\n[\s\S]*?\n---\n/m` at a line start: a line
that is exactly `---`, then somewhere later the five characters
newline, `---`, newline. -/
def frontMatterAt (cs : List Char) : Bool :=
  match cs with
  | '-' :: '-' :: '-' :: '\n' :: rest => containsPat ['\n', '-', '-', '-', '\n'] rest
  | _ => false

/-- The `MD` pattern table, in the source's property order (which is the
iteration order of `Object.entries`). -/
def mdCatalog : List (String × (List Char → Bool)) :=
  [("heading", anyLineStart headingAt),
   ("setext", anyLineStart setextAt),
   ("list", anyLineStart listAt),
   ("blockquote", anyLineStart blockquoteAt),
   ("fenced", fencedRe),
   ("inlineCode", inlineCodeRe),
   ("link", linkScan),
   ("image", imageScan),
   ("tableRow", anyLineStart tableRowAt),
   ("hr", anyLineStart hrAt),
   ("emphasis", emphasisRe),
   ("html", htmlScan),
   ("frontMatter", anyLineStart frontMatterAt)]

/-- The per-feature weight chain of `markdownScore` (source lines 162–185). -/
def mdWeight (name : String) : ℚ :=
  if name = "fenced" ∨ name = "heading" ∨ name = "list" ∨ name = "link" ∨
      name = "tableRow" then 0.18
  else if name = "image" ∨ name = "blockquote" ∨ name = "setext" ∨
      name = "frontMatter" then 0.12
  else if name = "inlineCode" ∨ name = "hr" ∨ name = "emphasis" then 0.08
  else if name = "html" then 0.05
  else 0

/-- The feature loop of `markdownScore`: accumulate the weight and record
the name of every matching feature, in catalog order. -/
def mdLoop : List (String × (List Char → Bool)) → List Char → ℚ × List String
  | [], _ => (0, [])
  | (name, re) :: rest, raw =>
    let t := mdLoop rest raw
    if re raw then (mdWeight name + t.1, name :: t.2) else t

/-- Result record of `markdownScore`: `{ score, reasons }`. -/
structure MdResult where
  score : ℚ
  reasons : List String
deriving DecidableEq

/-- `markdownScore` (source lines 152–203). -/
def markdownScore (text : String) : MdResult :=
  let raw := normNL text.toList
  let t := mdLoop mdCatalog raw
  let longLines := ((splitLines raw).filter (fun l => decide (l.length > 140))).length
  let s1 := if longLines ≥ 2 then t.1 - 0.1 else t.1
  let s2 := if hasBoxDrawing raw || hasBlockElems raw || hasBraille raw then s1 - 0.12
    else s1
  { score := clamp01 s2, reasons := t.2 }

/-- `/^(?:\s{2,}|\t)/`: leading indentation — two whitespace characters or
a tab. -/
def hintIndent (l : List Char) : Bool :=
  match l with
  | c1 :: c2 :: _ => c1 == '\t' || (isWs c1 && isWs c2)
  | [c1] => c1 == '\t'
  | [] => false

/-- `/;\s*$/`: a semicolon followed only by whitespace. -/
def hintSemi (l : List Char) : Bool :=
  match l.reverse.dropWhile isWs with
  | c :: _ => c == ';'
  | [] => false

/-- `kw` matches at the head of the list with a word boundary after it. -/
def boundedAt (kw : List Char) (cs : List Char) : Bool :=
  kw.isPrefixOf cs &&
    (match cs.drop kw.length with
     | c :: _ => !isWordChar c
     | [] => true)

/-- `\bkw\b` occurs somewhere; the flag records whether the current
position has a word boundary on its left (start, or previous character not
a word character). -/
def hasBounded (kw : List Char) : List Char → Bool → Bool
  | [], _ => false
  | c :: rest, ok => (ok && boundedAt kw (c :: rest)) || hasBounded kw rest (!isWordChar c)

def keywords : List String :=
  ["function", "class", "import", "export", "const", "let", "var", "def",
   "if", "for", "while"]

/-- `/\b(function|class|import|export|const|let|var|def|if|for|while)\b/`. -/
def hintKeyword (l : List Char) : Bool :=
  keywords.any (fun kw => hasBounded kw.toList l true)

/-- ``/[{}`]/``: a brace or backtick character. -/
def hintBrace (l : List Char) : Bool :=
  l.any (fun c => c == lb || c == rb || c == bq)

/-- `pat` occurs with a word boundary on its left only. -/
def hasLeftBounded (pat : List Char) : List Char → Bool → Bool
  | [], _ => false
  | c :: rest, ok =>
    (ok && pat.isPrefixOf (c :: rest)) || hasLeftBounded pat rest (!isWordChar c)

/-- `[\w.]`. -/
def isFrameName (c : Char) : Bool := isWordChar c || c == '.'

/-- `[\w/.:-]`. -/
def isFrameLoc (c : Char) : Bool :=
  isWordChar c || c == '/' || c == '.' || c == ':' || c == '-'

/-- The tail of `\bat\s+[\w.]+ \([\w/.:-]+\)` after `at`: one or more
whitespace characters, a nonempty `[\w.]` run, a literal space, `(`, a
nonempty `[\w/.:-]` run, `)`. -/
def atFrameAfter (cs : List Char) : Bool :=
  let cs1 := cs.dropWhile isWs
  decide (cs1.length < cs.length) &&
    (let cs2 := cs1.dropWhile isFrameName
     decide (cs2.length < cs1.length) &&
       (match cs2 with
        | ' ' :: '(' :: cs3 =>
          let cs4 := cs3.dropWhile isFrameLoc
          decide (cs4.length < cs3.length) &&
            (match cs4 with
             | ')' :: _ => true
             | _ => false)
        | _ => false))

/-- `\bat\s+[\w.]+ \([\w/.:-]+\)` occurs somewhere. -/
def atFrameScan : List Char → Bool → Bool
  | [], _ => false
  | c :: rest, ok =>
    (ok && ['a', 't'].isPrefixOf (c :: rest) && atFrameAfter ((c :: rest).drop 2)) ||
      atFrameScan rest (!isWordChar c)

/-- `/\bException:|\bat\s+[\w.]+ \([\w/.:-]+\)/`. -/
def hintStackTrace (l : List Char) : Bool :=
  hasLeftBounded "Exception:".toList l true || atFrameScan l true

/-- `codeHints.some((re) => re.test(l))`. -/
def codeHintLine (l : List Char) : Bool :=
  hintIndent l || hintSemi l || hintKeyword l || hintBrace l || hintStackTrace l

/-- `codeLikePenalty` (source lines 210–232). -/
def codeLikePenalty (text : String) : ℚ :=
  let lines := splitCodeLines text.toList
  let hits := (lines.filter codeHintLine).length
  if hits ≥ max 3 (Nat.floor ((lines.length : ℚ) * 0.08)) then 0.15 else 0

/-- `Number(x.toFixed(3))`: round to three decimal places (half rounds up,
modelling decimal rounding of the idealised exact value). -/
def round3 (q : ℚ) : ℚ := ((round (q * 1000) : ℤ) : ℚ) / 1000

/-- The output of `detectTextFormat`.  The JS object nests the reason lists
in `reasons: { ascii, markdown, codePenaltyApplied }`; here they are
flattened into three fields.  `codePenaltyApplied` and `stats` are `none`
when the corresponding key is absent (the empty-input branch, and — for
`stats` — the fewer-than-3-lines branch). -/
structure DetectionResult where
  text_format : String
  asciiArt : ℚ
  markdown : ℚ
  asciiReasons : List String
  markdownReasons : List String
  codePenaltyApplied : Option Bool
  stats : Option LineStats
deriving DecidableEq

/-- The result of the empty-input branch (source lines 240–247). -/
def emptyResult : DetectionResult :=
  { text_format := "plain", asciiArt := 0, markdown := 0,
    asciiReasons := ["empty"], markdownReasons := [],
    codePenaltyApplied := none, stats := none }

/-- `detectTextFormat` (source lines 239–287).  A non-string argument is
modelled as `none`. -/
def detectTextFormat (input : Option String) : DetectionResult :=
  match input with
  | none => emptyResult
  | some text =>
    if jsTrim text.toList = [] then emptyResult
    else
      let a := asciiArtScore text
      let m := markdownScore text
      let codePenalty := codeLikePenalty text
      let asciiFinal := max 0 (a.score - codePenalty)
      let mdFinal := m.score
      let fmt :=
        if fencedRe text.toList then "code"
        else if xmlQuick text.toList then "xml"
        else if htmlQuick text.toList then "html"
        else if jsonQuick text.toList then "json"
        else if asciiFinal ≥ 0.35 ∧ asciiFinal > mdFinal + 0.1 then "ascii"
        else if mdFinal ≥ 0.08 ∧ mdFinal ≥ asciiFinal then "markdown"
        else "plain"
      { text_format := fmt, asciiArt := round3 asciiFinal, markdown := round3 mdFinal,
        asciiReasons := a.reasons, markdownReasons := m.reasons,
        codePenaltyApplied := some (decide (codePenalty > 0)), stats := a.stats }

/-- The border-like test as the claim words it: trimmed length ≥ 3 and
either (a) all characters identical, or (b) at least 80% border characters
AND border first and last characters.  (Clause (a) alone is claimed to
suffice.) -/
def claimBorderLike (line : List Char) : Bool :=
  let t := jsTrim line
  match t with
  | [] => false
  | c0 :: rest =>
    decide (3 ≤ (c0 :: rest).length) &&
      ((c0 :: rest).all (fun c => c == c0) ||
        (decide ((0.8 : ℚ) ≤
            (((c0 :: rest).filter isBorderChar).length : ℚ) /
              (((c0 :: rest).length : ℚ))) &&
          isBorderChar c0 &&
          isBorderChar ((c0 :: rest).getLast (List.cons_ne_nil c0 rest))))

/-- The border-like test as amended: trimmed length ≥ 3 AND border first
and last characters AND (all characters identical OR at least 80% border
characters). -/
def borderLikeAmended (line : List Char) : Bool :=
  let t := jsTrim line
  match t with
  | [] => false
  | c0 :: rest =>
    decide (3 ≤ (c0 :: rest).length) && isBorderChar c0 &&
      isBorderChar ((c0 :: rest).getLast (List.cons_ne_nil c0 rest)) &&
      ((c0 :: rest).all (fun c => c == c0) ||
        decide ((0.8 : ℚ) ≤
          (((c0 :: rest).filter isBorderChar).length : ℚ) /
            (((c0 :: rest).length : ℚ))))

/-- The flag of `jsonOpenScan` after consuming `pre`: whether every
character since the last line start is whitespace. -/
def lineFlag (flag : Bool) : List Char → Bool
  | [] => flag
  | c :: rest => lineFlag (if isLineTerm c then true else flag && isWs c) rest

/-- The amended description of the `json` fast path: some opening `{` or
`[` preceded on its line only by whitespace (either the text start with
only whitespace before the bracket, or a line terminator with only
whitespace after it), and, strictly after the opening bracket, some
closing `}` or `]` — not necessarily matching — followed on its line only
by whitespace (the closing bracket need not end the overall text). -/
def JsonFastSpec (cs : List Char) : Prop :=
  ∃ pre op mid cl post,
    cs = pre ++ op :: (mid ++ cl :: post) ∧
    (op = lb ∨ op = '[') ∧ (cl = rb ∨ cl = ']') ∧
    (pre.all isWs = true ∨
      ∃ u t v, pre = u ++ t :: v ∧ isLineTerm t = true ∧ v.all isWs = true) ∧
    (post.takeWhile (fun c => !isLineTerm c)).all isWs = true

/-! ### Helper lemmas -/

lemma clamp01_nonneg (q : ℚ) : 0 ≤ clamp01 q := le_max_left 0 _

lemma clamp01_le_one (q : ℚ) : clamp01 q ≤ 1 :=
  max_le (by norm_num) (min_le_left 1 q)

lemma codeLikePenalty_cases (t : String) :
    codeLikePenalty t = 0 ∨ codeLikePenalty t = 0.15 := by
  unfold codeLikePenalty
  dsimp only
  split
  · exact Or.inr rfl
  · exact Or.inl rfl

lemma codeLikePenalty_nonneg (t : String) : 0 ≤ codeLikePenalty t := by
  rcases codeLikePenalty_cases t with h | h
  · rw [h]
  · rw [h]
    norm_num

lemma asciiArtScore_score_nonneg (t : String) : 0 ≤ (asciiArtScore t).score := by
  unfold asciiArtScore
  dsimp only
  split
  · norm_num
  · exact clamp01_nonneg _

lemma asciiArtScore_score_le_one (t : String) : (asciiArtScore t).score ≤ 1 := by
  unfold asciiArtScore
  dsimp only
  split
  · norm_num
  · exact clamp01_le_one _

lemma markdownScore_score_nonneg (t : String) : 0 ≤ (markdownScore t).score :=
  clamp01_nonneg _

lemma markdownScore_score_le_one (t : String) : (markdownScore t).score ≤ 1 :=
  clamp01_le_one _

lemma round3_nonneg (q : ℚ) (h : 0 ≤ q) : 0 ≤ round3 q := by
  unfold round3
  have h1 : (0 : ℤ) ≤ round (q * 1000) := by
    rw [round_eq]
    have h2 : (0 : ℤ) = ⌊(0 : ℚ) + 1 / 2⌋ := by
      rw [eq_comm, Int.floor_eq_iff]
      norm_num
    rw [h2]
    exact Int.floor_le_floor (by linarith)
  have h3 : (0 : ℚ) ≤ ((round (q * 1000) : ℤ) : ℚ) := by exact_mod_cast h1
  positivity

lemma round3_le_one (q : ℚ) (h : q ≤ 1) : round3 q ≤ 1 := by
  unfold round3
  have h1 : round (q * 1000) ≤ (1000 : ℤ) := by
    rw [round_eq]
    have h2 : (1000 : ℤ) = ⌊(1000 : ℚ) + 1 / 2⌋ := by
      rw [eq_comm, Int.floor_eq_iff]
      norm_num
    rw [h2]
    exact Int.floor_le_floor (by linarith)
  have h3 : ((round (q * 1000) : ℤ) : ℚ) ≤ 1000 := by exact_mod_cast h1
  linarith

/-- Unfolding of `detectTextFormat` on valid (nonempty after trim) input. -/
lemma detect_some_eq (text : String) (h : jsTrim text.toList ≠ []) :
    detectTextFormat (some text) =
      { text_format :=
          if fencedRe text.toList then "code"
          else if xmlQuick text.toList then "xml"
          else if htmlQuick text.toList then "html"
          else if jsonQuick text.toList then "json"
          else if max 0 ((asciiArtScore text).score - codeLikePenalty text) ≥ 0.35 ∧
              max 0 ((asciiArtScore text).score - codeLikePenalty text) >
                (markdownScore text).score + 0.1 then "ascii"
          else if (markdownScore text).score ≥ 0.08 ∧
              (markdownScore text).score ≥
                max 0 ((asciiArtScore text).score - codeLikePenalty text) then "markdown"
          else "plain",
        asciiArt := round3 (max 0 ((asciiArtScore text).score - codeLikePenalty text)),
        markdown := round3 (markdownScore text).score,
        asciiReasons := (asciiArtScore text).reasons,
        markdownReasons := (markdownScore text).reasons,
        codePenaltyApplied := some (decide (codeLikePenalty text > 0)),
        stats := (asciiArtScore text).stats } := by
  unfold detectTextFormat
  dsimp only
  rw [if_neg h]

/-! ### Claims -/

/-- C1: for every input value (any string or the non-string `none`), both
scores of the result of `detectTextFormat` lie in `[0, 1]`, and the
returned format is one of the seven tags `plain`, `markdown`, `ascii`,
`code`, `html`, `json`, `xml`. -/
theorem detect_scores_bounded_format_total (input : Option String) :
    0 ≤ (detectTextFormat input).asciiArt ∧ (detectTextFormat input).asciiArt ≤ 1 ∧
    0 ≤ (detectTextFormat input).markdown ∧ (detectTextFormat input).markdown ≤ 1 ∧
    (detectTextFormat input).text_format ∈
      ["plain", "markdown", "ascii", "code", "html", "json", "xml"] := by
  have hEmpty :
      0 ≤ emptyResult.asciiArt ∧ emptyResult.asciiArt ≤ 1 ∧
      0 ≤ emptyResult.markdown ∧ emptyResult.markdown ≤ 1 ∧
      emptyResult.text_format ∈
        ["plain", "markdown", "ascii", "code", "html", "json", "xml"] := by
    refine ⟨le_refl 0, by norm_num [emptyResult], le_refl 0, by norm_num [emptyResult], ?_⟩
    simp [emptyResult]
  match input with
  | none => exact hEmpty
  | some text =>
    by_cases h : jsTrim text.toList = []
    · have : detectTextFormat (some text) = emptyResult := by
        unfold detectTextFormat
        dsimp only
        rw [if_pos h]
      rw [this]
      exact hEmpty
    · rw [detect_some_eq text h]
      have hp := codeLikePenalty_nonneg text
      have ha0 := asciiArtScore_score_nonneg text
      have ha1 := asciiArtScore_score_le_one text
      have hm0 := markdownScore_score_nonneg text
      have hm1 := markdownScore_score_le_one text
      have hfin0 : 0 ≤ max 0 ((asciiArtScore text).score - codeLikePenalty text) :=
        le_max_left 0 _
      have hfin1 : max 0 ((asciiArtScore text).score - codeLikePenalty text) ≤ 1 :=
        max_le (by norm_num) (by linarith)
      refine ⟨round3_nonneg _ hfin0, round3_le_one _ hfin1,
        round3_nonneg _ hm0, round3_le_one _ hm1, ?_⟩
      dsimp only
      split_ifs <;> simp

/-- C2: for a non-string input or one whose trim is empty,
`detectTextFormat` returns format `plain`, both scores `0`, ascii reasons
`["empty"]`, no markdown reasons, and absent `codePenaltyApplied`/`stats`
keys; no scoring heuristic runs. -/
theorem detect_empty_input (input : Option String)
    (h : input = none ∨ ∃ s, input = some s ∧ jsTrim s.toList = []) :
    detectTextFormat input =
      { text_format := "plain", asciiArt := 0, markdown := 0,
        asciiReasons := ["empty"], markdownReasons := [],
        codePenaltyApplied := none, stats := none } := by
  rcases h with h | ⟨s, rfl, hs⟩
  · rw [h]; rfl
  · unfold detectTextFormat
    dsimp only
    rw [if_pos hs]
    rfl

/-- Witness for C2 at the concrete whitespace-only input `"   \n\t "`. -/
theorem detect_empty_input_witness :
    detectTextFormat (some "   \n\t ") =
      { text_format := "plain", asciiArt := 0, markdown := 0,
        asciiReasons := ["empty"], markdownReasons := [],
        codePenaltyApplied := none, stats := none } :=
  detect_empty_input (some "   \n\t ") (Or.inr ⟨"   \n\t ", rfl, by decide⟩)

/-- C3: any valid input containing a balanced fenced block (triple backtick
or triple tilde) classifies as `code`, regardless of every score: the
fenced fast path needs no other hypothesis. -/
theorem fenced_forces_code (s : String) (h1 : jsTrim s.toList ≠ [])
    (h2 : fencedRe s.toList = true) :
    (detectTextFormat (some s)).text_format = "code" := by
  rw [detect_some_eq s h1]
  dsimp only
  rw [if_pos h2]

/-- Witness for C3: an input holding both a heading and a fenced block
still returns `code`. -/
theorem fenced_forces_code_witness :
    (detectTextFormat (some "# Title\n\x60\x60\x60js\nlet x = 1;\n\x60\x60\x60")).text_format =
      "code" :=
  fenced_forces_code "# Title\n\x60\x60\x60js\nlet x = 1;\n\x60\x60\x60"
    (by decide) (by decide)

/-- C4: with no fast path firing, the format is `ascii` iff the final
ascii score (`max 0 (score − penalty)`) reaches `0.35` and exceeds the
markdown score by more than `0.1`; otherwise `markdown` iff the markdown
score reaches `0.08` and is at least the final ascii score; otherwise
`plain`. -/
theorem threshold_classification (s : String) (h1 : jsTrim s.toList ≠ [])
    (h2 : fencedRe s.toList = false) (h3 : xmlQuick s.toList = false)
    (h4 : htmlQuick s.toList = false) (h5 : jsonQuick s.toList = false) :
    ((detectTextFormat (some s)).text_format = "ascii" ↔
      (max 0 ((asciiArtScore s).score - codeLikePenalty s) ≥ 0.35 ∧
        max 0 ((asciiArtScore s).score - codeLikePenalty s) >
          (markdownScore s).score + 0.1)) ∧
    (¬(max 0 ((asciiArtScore s).score - codeLikePenalty s) ≥ 0.35 ∧
        max 0 ((asciiArtScore s).score - codeLikePenalty s) >
          (markdownScore s).score + 0.1) →
      ((detectTextFormat (some s)).text_format = "markdown" ↔
        ((markdownScore s).score ≥ 0.08 ∧
          (markdownScore s).score ≥
            max 0 ((asciiArtScore s).score - codeLikePenalty s)))) ∧
    (¬(max 0 ((asciiArtScore s).score - codeLikePenalty s) ≥ 0.35 ∧
        max 0 ((asciiArtScore s).score - codeLikePenalty s) >
          (markdownScore s).score + 0.1) →
      ¬((markdownScore s).score ≥ 0.08 ∧
          (markdownScore s).score ≥
            max 0 ((asciiArtScore s).score - codeLikePenalty s)) →
      (detectTextFormat (some s)).text_format = "plain") := by
  rw [detect_some_eq s h1]
  dsimp only
  simp only [h2, h3, h4, h5, Bool.false_eq_true, if_false]
  split_ifs with hA hM
  · exact ⟨⟨fun _ => hA, fun _ => rfl⟩, fun hna => absurd hA hna,
      fun hna _ => absurd hA hna⟩
  · exact ⟨⟨fun h => absurd h (by decide), fun h => absurd h hA⟩,
      fun _ => ⟨fun _ => hM, fun _ => rfl⟩, fun _ hnm => absurd hM hnm⟩
  · exact ⟨⟨fun h => absurd h (by decide), fun h => absurd h hA⟩,
      fun _ => ⟨fun h => absurd h (by decide), fun h => absurd h hM⟩,
      fun _ _ => rfl⟩

/-- Witness for C4 at the plain three-line input
`"just a plain sentence\nwith lines\nof prose"`, on which none of the
four fast paths fires. -/
theorem threshold_classification_witness :
    ((detectTextFormat (some "just a plain sentence\nwith lines\nof prose")).text_format =
        "ascii" ↔
      (max 0 ((asciiArtScore "just a plain sentence\nwith lines\nof prose").score -
          codeLikePenalty "just a plain sentence\nwith lines\nof prose") ≥ 0.35 ∧
        max 0 ((asciiArtScore "just a plain sentence\nwith lines\nof prose").score -
          codeLikePenalty "just a plain sentence\nwith lines\nof prose") >
          (markdownScore "just a plain sentence\nwith lines\nof prose").score + 0.1)) ∧
    (¬(max 0 ((asciiArtScore "just a plain sentence\nwith lines\nof prose").score -
          codeLikePenalty "just a plain sentence\nwith lines\nof prose") ≥ 0.35 ∧
        max 0 ((asciiArtScore "just a plain sentence\nwith lines\nof prose").score -
          codeLikePenalty "just a plain sentence\nwith lines\nof prose") >
          (markdownScore "just a plain sentence\nwith lines\nof prose").score + 0.1) →
      ((detectTextFormat (some "just a plain sentence\nwith lines\nof prose")).text_format =
          "markdown" ↔
        ((markdownScore "just a plain sentence\nwith lines\nof prose").score ≥ 0.08 ∧
          (markdownScore "just a plain sentence\nwith lines\nof prose").score ≥
            max 0 ((asciiArtScore "just a plain sentence\nwith lines\nof prose").score -
              codeLikePenalty "just a plain sentence\nwith lines\nof prose")))) ∧
    (¬(max 0 ((asciiArtScore "just a plain sentence\nwith lines\nof prose").score -
          codeLikePenalty "just a plain sentence\nwith lines\nof prose") ≥ 0.35 ∧
        max 0 ((asciiArtScore "just a plain sentence\nwith lines\nof prose").score -
          codeLikePenalty "just a plain sentence\nwith lines\nof prose") >
          (markdownScore "just a plain sentence\nwith lines\nof prose").score + 0.1) →
      ¬((markdownScore "just a plain sentence\nwith lines\nof prose").score ≥ 0.08 ∧
          (markdownScore "just a plain sentence\nwith lines\nof prose").score ≥
            max 0 ((asciiArtScore "just a plain sentence\nwith lines\nof prose").score -
              codeLikePenalty "just a plain sentence\nwith lines\nof prose")) →
      (detectTextFormat (some "just a plain sentence\nwith lines\nof prose")).text_format =
        "plain") :=
  threshold_classification "just a plain sentence\nwith lines\nof prose"
    (by decide) (by decide) (by decide) (by decide) (by decide)

/-- C7: the code-likeness penalty is `0` or `0.15`; it is `0.15` exactly
when the number of code-hint lines reaches `max 3 ⌊lines × 0.08⌋`; it is
subtracted only from the ascii score (the markdown score is rounded
unchanged); and `codePenaltyApplied` is `true` exactly when the penalty is
nonzero. -/
theorem code_penalty_contract (s : String) :
    (codeLikePenalty s = 0 ∨ codeLikePenalty s = 0.15) ∧
    (codeLikePenalty s = 0.15 ↔
      ((splitCodeLines s.toList).filter codeHintLine).length ≥
        max 3 (Nat.floor (((splitCodeLines s.toList).length : ℚ) * 0.08))) ∧
    (jsTrim s.toList ≠ [] →
      (detectTextFormat (some s)).asciiArt =
          round3 (max 0 ((asciiArtScore s).score - codeLikePenalty s)) ∧
      (detectTextFormat (some s)).markdown = round3 (markdownScore s).score ∧
      ((detectTextFormat (some s)).codePenaltyApplied = some true ↔
        codeLikePenalty s ≠ 0)) := by
  refine ⟨codeLikePenalty_cases s, ?_, ?_⟩
  · unfold codeLikePenalty
    dsimp only
    split
    next h => exact ⟨fun _ => h, fun _ => rfl⟩
    next h => exact ⟨fun h0 => absurd h0.symm (by norm_num), fun hc => absurd hc h⟩
  · intro hv
    rw [detect_some_eq s hv]
    dsimp only
    refine ⟨rfl, rfl, ?_⟩
    constructor
    · intro h
      have hd : decide (codeLikePenalty s > 0) = true := Option.some.injEq _ _ ▸ h
      have := of_decide_eq_true hd
      exact ne_of_gt this
    · intro hne
      rcases codeLikePenalty_cases s with h0 | h15
      · exact absurd h0 hne
      · rw [h15]
        norm_num

/-- Witness for C7: its detection part at the concrete input
`"const x = 1;"`. -/
theorem code_penalty_contract_witness :
    jsTrim "const x = 1;".toList ≠ [] ∧
    ((detectTextFormat (some "const x = 1;")).asciiArt =
        round3 (max 0 ((asciiArtScore "const x = 1;").score -
          codeLikePenalty "const x = 1;")) ∧
      (detectTextFormat (some "const x = 1;")).markdown =
        round3 (markdownScore "const x = 1;").score ∧
      ((detectTextFormat (some "const x = 1;")).codePenaltyApplied = some true ↔
        codeLikePenalty "const x = 1;" ≠ 0)) :=
  ⟨by decide, (code_penalty_contract "const x = 1;").2.2 (by decide)⟩

/-- C9: `detectTextFormat` is deterministic — the result (format, scores,
reason lists, stats) depends on nothing but the argument. -/
theorem detect_deterministic (s t : Option String) (h : s = t) :
    detectTextFormat s = detectTextFormat t ∧
    (detectTextFormat s).text_format = (detectTextFormat t).text_format ∧
    (detectTextFormat s).asciiArt = (detectTextFormat t).asciiArt ∧
    (detectTextFormat s).markdown = (detectTextFormat t).markdown ∧
    (detectTextFormat s).asciiReasons = (detectTextFormat t).asciiReasons ∧
    (detectTextFormat s).markdownReasons = (detectTextFormat t).markdownReasons ∧
    (detectTextFormat s).codePenaltyApplied = (detectTextFormat t).codePenaltyApplied ∧
    (detectTextFormat s).stats = (detectTextFormat t).stats := by
  subst h
  exact ⟨rfl, rfl, rfl, rfl, rfl, rfl, rfl, rfl⟩

/-- Witness for C9 at the concrete input `"# x"`. -/
theorem detect_deterministic_witness :
    detectTextFormat (some "# x") = detectTextFormat (some "# x") ∧
    (detectTextFormat (some "# x")).text_format =
      (detectTextFormat (some "# x")).text_format ∧
    (detectTextFormat (some "# x")).asciiArt = (detectTextFormat (some "# x")).asciiArt ∧
    (detectTextFormat (some "# x")).markdown = (detectTextFormat (some "# x")).markdown ∧
    (detectTextFormat (some "# x")).asciiReasons =
      (detectTextFormat (some "# x")).asciiReasons ∧
    (detectTextFormat (some "# x")).markdownReasons =
      (detectTextFormat (some "# x")).markdownReasons ∧
    (detectTextFormat (some "# x")).codePenaltyApplied =
      (detectTextFormat (some "# x")).codePenaltyApplied ∧
    (detectTextFormat (some "# x")).stats = (detectTextFormat (some "# x")).stats :=
  detect_deterministic (some "# x") (some "# x") rfl

/-- C10: a valid input whose normalized form has fewer than 3 lines never
classifies as `ascii`: the ascii scorer returns score 0 with sole reason
`too_few_lines` and no stats, the reported ascii score is 0, and the
format is one of the six other tags. -/
theorem few_lines_never_ascii (s : String) (h1 : jsTrim s.toList ≠ [])
    (h2 : (splitLines (normNL s.toList)).length < 3) :
    asciiArtScore s = { score := 0, reasons := ["too_few_lines"], stats := none } ∧
    (detectTextFormat (some s)).asciiArt = 0 ∧
    (detectTextFormat (some s)).text_format ≠ "ascii" ∧
    (detectTextFormat (some s)).text_format ∈
      ["code", "xml", "html", "json", "markdown", "plain"] := by
  have hsc : asciiArtScore s = { score := 0, reasons := ["too_few_lines"], stats := none } := by
    unfold asciiArtScore
    dsimp only
    rw [if_pos h2]
  have hfin : max 0 ((asciiArtScore s).score - codeLikePenalty s) = 0 := by
    rw [hsc]
    dsimp only
    have hp := codeLikePenalty_nonneg s
    exact max_eq_left (by linarith)
  refine ⟨hsc, ?_, ?_⟩
  · rw [detect_some_eq s h1]
    dsimp only
    rw [hfin]
    unfold round3
    norm_num
  · rw [detect_some_eq s h1]
    dsimp only
    rw [hfin]
    split_ifs with hf hx hh hj hA hM
    · exact ⟨by decide, by decide⟩
    · exact ⟨by decide, by decide⟩
    · exact ⟨by decide, by decide⟩
    · exact ⟨by decide, by decide⟩
    · exact absurd hA.1 (by norm_num)
    · exact ⟨by decide, by decide⟩
    · exact ⟨by decide, by decide⟩

/-- Witness for C10 at the two-line input `"Hi\nthere"`. -/
theorem few_lines_never_ascii_witness :
    asciiArtScore "Hi\nthere" =
      { score := 0, reasons := ["too_few_lines"], stats := none } ∧
    (detectTextFormat (some "Hi\nthere")).asciiArt = 0 ∧
    (detectTextFormat (some "Hi\nthere")).text_format ≠ "ascii" ∧
    (detectTextFormat (some "Hi\nthere")).text_format ∈
      ["code", "xml", "html", "json", "markdown", "plain"] :=
  few_lines_never_ascii "Hi\nthere" (by decide) (by decide)

/-- C6, counterexample: on the line `"aaaa"` — four identical non-border
characters — the claim's definition says border-like, but the source
(which demands border first and last characters in every case) says it is
not. -/
theorem border_like_counterexample :
    claimBorderLike "aaaa".toList = true ∧ isBorderLike "aaaa".toList = false := by
  constructor
  · decide
  · decide

/-- C6, amended: the source's border-like test agrees everywhere with the
amended wording (border first/last characters required in all cases). -/
theorem border_like_characterization (cs : List Char) :
    isBorderLike cs = borderLikeAmended cs := by
  unfold isBorderLike borderLikeAmended
  cases h : jsTrim cs with
  | nil => rfl
  | cons c0 rest =>
    dsimp only
    by_cases hl : (c0 :: rest).length < 3
    · rw [if_pos hl]
      have h3 : ¬(3 ≤ (c0 :: rest).length) := by omega
      simp only [decide_eq_false h3, Bool.false_and]
    · rw [if_neg hl]
      have h3 : 3 ≤ (c0 :: rest).length := by omega
      simp only [decide_eq_true h3, Bool.true_and]
      cases isBorderChar c0 <;>
        cases isBorderChar ((c0 :: rest).getLast (List.cons_ne_nil c0 rest)) <;>
          simp [Bool.or_comm]

/-- C8, counterexample: on `"Title\n---\n- item"` both the `list` and the
`setext` patterns match, but `setext` precedes `list` in the markdown
reasons (the source evaluates the `MD` object in property order, where
`setext` comes second and `list` third). -/
theorem markdown_reason_order_counterexample :
    "list" ∈ (markdownScore "Title\n---\n- item").reasons ∧
    "setext" ∈ (markdownScore "Title\n---\n- item").reasons ∧
    List.indexOf "setext" (markdownScore "Title\n---\n- item").reasons <
      List.indexOf "list" (markdownScore "Title\n---\n- item").reasons := by
  refine ⟨?_, ?_, ?_⟩ <;> decide

lemma mdLoop_reasons (fs : List (String × (List Char → Bool))) (raw : List Char) :
    (mdLoop fs raw).2 = (fs.filter (fun f => f.2 raw)).map Prod.fst := by
  induction fs with
  | nil => rfl
  | cons f rest ih =>
    obtain ⟨name, re⟩ := f
    unfold mdLoop
    dsimp only
    cases h : re raw <;> simp [h, List.filter_cons, ih]

/-- C8, amended: the markdown reasons are exactly the matched feature
names in the evaluation order of the source's `MD` table — `heading`,
`setext`, `list`, `blockquote`, `fenced`, `inlineCode`, `link`, `image`,
`tableRow`, `hr`, `emphasis`, `html`, `frontMatter`. -/
theorem markdown_reason_order (text : String) :
    (markdownScore text).reasons =
      (mdCatalog.filter (fun f => f.2 (normNL text.toList))).map Prod.fst ∧
    mdCatalog.map Prod.fst =
      ["heading", "setext", "list", "blockquote", "fenced", "inlineCode", "link",
       "image", "tableRow", "hr", "emphasis", "html", "frontMatter"] := by
  constructor
  · unfold markdownScore
    dsimp only
    exact mdLoop_reasons mdCatalog _
  · rfl

lemma wsToLineEnd_eq (cs : List Char) :
    wsToLineEnd cs = (cs.takeWhile (fun c => !isLineTerm c)).all isWs := by
  induction cs with
  | nil => rfl
  | cons c rest ih =>
    unfold wsToLineEnd
    rw [List.takeWhile_cons]
    cases hc : isLineTerm c <;> simp [hc, ih]

lemma closeScan_iff (cs : List Char) :
    closeScan cs = true ↔
      ∃ mid cl post, cs = mid ++ cl :: post ∧ (cl = rb ∨ cl = ']') ∧
        wsToLineEnd post = true := by
  induction cs with
  | nil =>
    constructor
    · intro h
      simp [closeScan] at h
    · rintro ⟨mid, cl, post, h, -, -⟩
      cases mid <;> simp at h
  | cons c rest ih =>
    unfold closeScan
    simp only [Bool.or_eq_true, Bool.and_eq_true, beq_iff_eq, ih]
    constructor
    · rintro (⟨hcl, hws⟩ | ⟨mid, cl, post, h, hcl, hws⟩)
      · exact ⟨[], c, rest, rfl, hcl, hws⟩
      · exact ⟨c :: mid, cl, post, by rw [h, List.cons_append], hcl, hws⟩
    · rintro ⟨mid, cl, post, h, hcl, hws⟩
      cases mid with
      | nil =>
        rw [List.nil_append] at h
        injection h with h1 h2
        subst h1
        subst h2
        exact Or.inl ⟨hcl, hws⟩
      | cons m ms =>
        rw [List.cons_append] at h
        injection h with h1 h2
        subst h1
        exact Or.inr ⟨ms, cl, post, h2, hcl, hws⟩

lemma jsonOpenScan_iff (cs : List Char) : ∀ flag,
    jsonOpenScan cs flag = true ↔
      ∃ pre op tail, cs = pre ++ op :: tail ∧ (op = lb ∨ op = '[') ∧
        lineFlag flag pre = true ∧ closeScan tail = true := by
  induction cs with
  | nil =>
    intro flag
    constructor
    · intro h
      simp [jsonOpenScan] at h
    · rintro ⟨pre, op, tail, h, -, -, -⟩
      cases pre <;> simp at h
  | cons c rest ih =>
    intro flag
    unfold jsonOpenScan
    simp only [Bool.or_eq_true, Bool.and_eq_true, beq_iff_eq, ih]
    constructor
    · rintro (⟨⟨hop, hflag⟩, hclose⟩ | ⟨pre, op, tail, h, hop, hlf, hcl⟩)
      · exact ⟨[], c, rest, rfl, hop, by simpa [lineFlag] using hflag, hclose⟩
      · refine ⟨c :: pre, op, tail, by rw [h, List.cons_append], hop, ?_, hcl⟩
        simpa [lineFlag] using hlf
    · rintro ⟨pre, op, tail, h, hop, hlf, hcl⟩
      cases pre with
      | nil =>
        rw [List.nil_append] at h
        injection h with h1 h2
        subst h1
        subst h2
        exact Or.inl ⟨⟨hop, by simpa [lineFlag] using hlf⟩, hcl⟩
      | cons p ps =>
        rw [List.cons_append] at h
        injection h with h1 h2
        subst h1
        exact Or.inr ⟨ps, op, tail, h2, hop, by simpa [lineFlag] using hlf, hcl⟩

lemma lineFlag_true_iff (pre : List Char) : ∀ flag,
    lineFlag flag pre = true ↔
      ((flag = true ∧ pre.all isWs = true) ∨
        ∃ u t v, pre = u ++ t :: v ∧ isLineTerm t = true ∧ v.all isWs = true) := by
  induction pre with
  | nil =>
    intro flag
    constructor
    · intro h
      exact Or.inl ⟨h, rfl⟩
    · rintro (⟨h, -⟩ | ⟨u, t, v, h, -, -⟩)
      · exact h
      · cases u <;> simp at h
  | cons c rest ih =>
    intro flag
    have hstep : lineFlag flag (c :: rest) =
        lineFlag (if isLineTerm c then true else flag && isWs c) rest := rfl
    rw [hstep, ih]
    cases hc : isLineTerm c with
    | true =>
      simp only [if_pos rfl]
      constructor
      · rintro (⟨-, hall⟩ | ⟨u, t, v, h, ht, hv⟩)
        · exact Or.inr ⟨[], c, rest, rfl, hc, hall⟩
        · exact Or.inr ⟨c :: u, t, v, by rw [h, List.cons_append], ht, hv⟩
      · rintro (⟨-, hall⟩ | ⟨u, t, v, h, ht, hv⟩)
        · rw [List.all_cons, Bool.and_eq_true] at hall
          exact Or.inl ⟨rfl, hall.2⟩
        · cases u with
          | nil =>
            rw [List.nil_append] at h
            injection h with h1 h2
            subst h2
            exact Or.inl ⟨rfl, hv⟩
          | cons u0 us =>
            rw [List.cons_append] at h
            injection h with h1 h2
            exact Or.inr ⟨us, t, v, h2, ht, hv⟩
    | false =>
      simp only [hc, if_false, Bool.false_eq_true]
      constructor
      · rintro (⟨hfw, hall⟩ | ⟨u, t, v, h, ht, hv⟩)
        · rw [Bool.and_eq_true] at hfw
          exact Or.inl ⟨hfw.1, by rw [List.all_cons, Bool.and_eq_true]; exact ⟨hfw.2, hall⟩⟩
        · exact Or.inr ⟨c :: u, t, v, by rw [h, List.cons_append], ht, hv⟩
      · rintro (⟨hf, hall⟩ | ⟨u, t, v, h, ht, hv⟩)
        · rw [List.all_cons, Bool.and_eq_true] at hall
          exact Or.inl ⟨by rw [Bool.and_eq_true]; exact ⟨hf, hall.1⟩, hall.2⟩
        · cases u with
          | nil =>
            rw [List.nil_append] at h
            injection h with h1 h2
            subst h1
            rw [hc] at ht
            exact absurd ht (by simp)
          | cons u0 us =>
            rw [List.cons_append] at h
            injection h with h1 h2
            exact Or.inr ⟨us, t, v, h2, ht, hv⟩

/-- The `json` fast-path scanner agrees with its declarative description. -/
lemma jsonQuick_iff (cs : List Char) : jsonQuick cs = true ↔ JsonFastSpec cs := by
  unfold jsonQuick JsonFastSpec
  rw [jsonOpenScan_iff]
  constructor
  · rintro ⟨pre, op, tail, hcs, hop, hlf, hclose⟩
    rw [closeScan_iff] at hclose
    obtain ⟨mid, cl, post, htail, hcl, hws⟩ := hclose
    refine ⟨pre, op, mid, cl, post, by rw [hcs, htail], hop, hcl, ?_, ?_⟩
    · rw [lineFlag_true_iff] at hlf
      rcases hlf with ⟨-, hall⟩ | hdec
      · exact Or.inl hall
      · exact Or.inr hdec
    · rw [wsToLineEnd_eq] at hws
      exact hws
  · rintro ⟨pre, op, mid, cl, post, hcs, hop, hcl, hpre, hpost⟩
    refine ⟨pre, op, mid ++ cl :: post, hcs, hop, ?_, ?_⟩
    · rw [lineFlag_true_iff]
      rcases hpre with hall | hdec
      · exact Or.inl ⟨rfl, hall⟩
      · exact Or.inr hdec
    · rw [closeScan_iff]
      exact ⟨mid, cl, post, rfl, hcl, by rw [wsToLineEnd_eq]; exact hpost⟩

/-- C5, counterexample: on the single-line input whose characters are
an opening curly brace, `abc`, and a closing square bracket, the `json`
fast path fires although the closing bracket does not match the opening
one — the input opens with a curly brace yet does not end with one. -/
theorem json_fast_path_counterexample :
    (detectTextFormat (some "\x7babc]")).text_format = "json" ∧
    "\x7babc]".toList.head? = some lb ∧
    "\x7babc]".toList.getLast? = some ']' := by
  refine ⟨?_, ?_, ?_⟩ <;> decide

/-- C5, amended: given no earlier fast path fired, the format is `json`
exactly when some line starts (after optional whitespace) with an opening
curly brace or `[` and, strictly after it, some closing curly brace or
`]` — not necessarily the matching one — is followed on its own line only
by whitespace (it need not end the overall text). -/
theorem json_fast_path_characterization (s : String) (h1 : jsTrim s.toList ≠ [])
    (h2 : fencedRe s.toList = false) (h3 : xmlQuick s.toList = false)
    (h4 : htmlQuick s.toList = false) :
    ((detectTextFormat (some s)).text_format = "json" ↔ JsonFastSpec s.toList) := by
  rw [detect_some_eq s h1]
  dsimp only
  simp only [h2, h3, h4, Bool.false_eq_true, if_false]
  by_cases hj : jsonQuick s.toList = true
  · rw [if_pos hj]
    exact ⟨fun _ => (jsonQuick_iff _).mp hj, fun _ => rfl⟩
  · rw [if_neg hj]
    have hns : ¬JsonFastSpec s.toList := fun hspec => hj ((jsonQuick_iff _).mpr hspec)
    split_ifs with hA hM
    · exact ⟨fun h => absurd h (by decide), fun hs => absurd hs hns⟩
    · exact ⟨fun h => absurd h (by decide), fun hs => absurd hs hns⟩
    · exact ⟨fun h => absurd h (by decide), fun hs => absurd hs hns⟩

/-- Witness for C5's amended characterization at the input `"[1]"`. -/
theorem json_fast_path_characterization_witness :
    ((detectTextFormat (some "[1]")).text_format = "json" ↔ JsonFastSpec "[1]".toList) :=
  json_fast_path_characterization "[1]" (by decide) (by decide) (by decide) (by decide)

end TextDetect
